import Mathlib

/-!
Verification of the fnkey voice-dictation pipeline (src/main.rs) against its
natural-language specification.

The embedding models, from the source:
- the modifier-key edge-detection state machine inside `run_event_tap`
  (`was_pressed` / `polish_latched` atomics and the `FlagsChanged` callback);
- the pure audio enhancer `enhance_audio` (DC removal, single-pole high-pass
  filter, peak-normalization step) over exact rationals, with the filter
  coefficient `a = exp(-2*pi*80/sample_rate)` passed as a parameter because it
  is transcendental (the claims quantify over it / do not depend on its value);
- the per-sample conversion of `encode_wav` (Rust `as i16` on `f32`:
  truncation toward zero with saturation);
- the orchestration in `stop_recording` / `transcribe_and_paste` /
  `polish_text`, with the external collaborators (reqwest HTTP, serde_json
  parsing, arboard clipboard, CGEvent paste) represented as explicit outcome
  parameters, and the observable side effects recorded in an `Effects` value.
-/

namespace FnKey

/-! ## Key-state tracker (run_event_tap callback, src/main.rs lines 451-476) -/

/-- State held across snapshots: the `was_pressed` and `polish_latched`
atomics of `run_event_tap`. -/
structure TrackerState where
  wasPressed : Bool
  polishLatched : Bool
deriving DecidableEq, Repr

/-- Edge events derived from modifier-flag snapshots.  `released` carries the
polish latch sampled at release time. -/
inductive KeyEdge where
  | pressed
  | released (polish : Bool)
deriving DecidableEq, Repr

/-- Whether the bits of `mask` are set in `flags`: `(flags & mask) != 0`. -/
def level (mask flags : Nat) : Bool := flags.land mask != 0

/-- One step of the `FlagsChanged` callback: from the current state and a
flags snapshot, the next state and the edge emitted (if any).  Mirrors the
branch structure of the closure in `run_event_tap`: the press branch resets
the latch, the release branch samples it, the latch is set afterwards when
the hotkey and the polish modifier are both down, and `was_pressed` is
updated last. -/
def tap_step (hotkeyFlag polishFlag : Nat) (s : TrackerState) (flags : Nat) :
    TrackerState × Option KeyEdge :=
  let keyPressed := level hotkeyFlag flags
  let polishHeld := level polishFlag flags
  let stepped :=
    if keyPressed && !s.wasPressed then
      (false, some KeyEdge.pressed)
    else if !keyPressed && s.wasPressed then
      (s.polishLatched, some (KeyEdge.released s.polishLatched))
    else
      (s.polishLatched, none)
  let latched := if keyPressed && polishHeld then true else stepped.1
  (⟨keyPressed, latched⟩, stepped.2)

/-- Run the callback over a sequence of snapshots, collecting emitted edges. -/
def tap_run (hotkeyFlag polishFlag : Nat) (s : TrackerState) :
    List Nat → TrackerState × List KeyEdge
  | [] => (s, [])
  | f :: rest =>
    let step := tap_step hotkeyFlag polishFlag s f
    let tail := tap_run hotkeyFlag polishFlag step.1 rest
    (tail.1, match step.2 with
             | some e => e :: tail.2
             | none => tail.2)

/-- The key level an edge certifies: `pressed` means the hotkey level became
high, `released` means it became low. -/
def edgeLevel : KeyEdge → Bool
  | .pressed => true
  | .released _ => false

/-- Strict alternation of an edge list relative to the previously-seen level
`b`: the next edge flips the level, and the rest alternates from there. -/
def alternates : Bool → List KeyEdge → Prop
  | _, [] => True
  | b, e :: rest => edgeLevel e = !b ∧ alternates (!b) rest

theorem tap_step_wasPressed (hf pf : Nat) (s : TrackerState) (f : Nat) :
    (tap_step hf pf s f).1.wasPressed = level hf f := by
  simp only [tap_step]

theorem tap_step_edge_none (hf pf : Nat) (s : TrackerState) (f : Nat)
    (h : level hf f = s.wasPressed) : (tap_step hf pf s f).2 = none := by
  simp only [tap_step, h]
  cases hw : s.wasPressed <;> simp [hw] at h ⊢

theorem tap_step_edge_some (hf pf : Nat) (s : TrackerState) (f : Nat)
    (e : KeyEdge) (h : (tap_step hf pf s f).2 = some e) :
    edgeLevel e = !s.wasPressed ∧ level hf f = !s.wasPressed := by
  revert h
  simp only [tap_step]
  cases hw : s.wasPressed <;> cases hl : level hf f <;>
    simp [edgeLevel] <;> intro h <;> simp [← h, edgeLevel]

theorem tap_run_alternates (hf pf : Nat) (snaps : List Nat) (s : TrackerState) :
    alternates s.wasPressed (tap_run hf pf s snaps).2 := by
  induction snaps generalizing s with
  | nil => simp [tap_run, alternates]
  | cons f rest ih =>
    show alternates s.wasPressed (tap_run hf pf s (f :: rest)).2
    simp only [tap_run]
    cases he : (tap_step hf pf s f).2 with
    | none =>
      simp only [he]
      have hlev : level hf f = s.wasPressed := by
        by_contra hne
        have hsome : (tap_step hf pf s f).2 ≠ none := by
          revert hne
          simp only [tap_step]
          cases hw : s.wasPressed <;> cases hl : level hf f <;> simp
        exact hsome he
      have hwp : (tap_step hf pf s f).1.wasPressed = s.wasPressed := by
        rw [tap_step_wasPressed, hlev]
      have := ih (tap_step hf pf s f).1
      rwa [hwp] at this
    | some e =>
      simp only [he]
      have hels := tap_step_edge_some hf pf s f e he
      have hwp : (tap_step hf pf s f).1.wasPressed = !s.wasPressed := by
        rw [tap_step_wasPressed, hels.2]
      constructor
      · exact hels.1
      · have := ih (tap_step hf pf s f).1
        rwa [hwp] at this

/-- C1: edges emitted by the tracker strictly alternate Pressed/Released
(relative to the level recorded in the incoming state), and a snapshot whose
hotkey level equals the previous level emits no edge. -/
theorem C1_edges_alternate (hf pf : Nat) (s : TrackerState) (snaps : List Nat) :
    alternates s.wasPressed (tap_run hf pf s snaps).2 ∧
    ∀ f : Nat, level hf f = s.wasPressed → (tap_step hf pf s f).2 = none :=
  ⟨tap_run_alternates hf pf snaps s, fun f h => tap_step_edge_none hf pf s f h⟩

/-- Witness for C1 at a concrete run: hotkey mask 1, polish mask 2, initial
state idle, snapshots press/hold/release/press. -/
theorem C1_edges_alternate_witness :
    alternates false (tap_run 1 2 ⟨false, false⟩ [1, 3, 0, 1]).2 ∧
    (tap_step 1 2 ⟨false, false⟩ 2).2 = none := by
  have h := C1_edges_alternate 1 2 ⟨false, false⟩ [1, 3, 0, 1]
  exact ⟨h.1, h.2 2 (by decide)⟩

theorem tap_step_press (hf pf : Nat) (s : TrackerState) (p : Nat)
    (hs : s.wasPressed = false) (hp : level hf p = true) :
    tap_step hf pf s p = (⟨true, level pf p⟩, some KeyEdge.pressed) := by
  simp only [tap_step, hp, hs]
  cases hpp : level pf p <;> simp

theorem tap_step_held (hf pf : Nat) (L : Bool) (m : Nat)
    (hml : level hf m = true) :
    tap_step hf pf ⟨true, L⟩ m = (⟨true, level pf m || L⟩, none) := by
  simp only [tap_step, hml]
  cases hpm : level pf m <;> simp

theorem tap_step_release (hf pf : Nat) (L : Bool) (r : Nat)
    (hr : level hf r = false) :
    tap_step hf pf ⟨true, L⟩ r = (⟨false, L⟩, some (KeyEdge.released L)) := by
  simp only [tap_step, hr]
  simp

theorem tap_run_cons (hf pf : Nat) (s : TrackerState) (f : Nat)
    (rest : List Nat) :
    tap_run hf pf s (f :: rest) =
      ((tap_run hf pf (tap_step hf pf s f).1 rest).1,
       match (tap_step hf pf s f).2 with
       | some e => e :: (tap_run hf pf (tap_step hf pf s f).1 rest).2
       | none => (tap_run hf pf (tap_step hf pf s f).1 rest).2) := rfl

theorem tap_run_held (hf pf r : Nat) (hr : level hf r = false) :
    ∀ (mids : List Nat) (L : Bool), (∀ m ∈ mids, level hf m = true) →
      (tap_run hf pf ⟨true, L⟩ (mids ++ [r])).2 =
        [KeyEdge.released (L || mids.any (level pf))]
  | [], L, _ => by
    simp [tap_run, tap_step_release hf pf L r hr]
  | m :: rest, L, hm => by
    have h1 := tap_step_held hf pf L m (hm m (List.mem_cons_self m rest))
    have h2 := tap_run_held hf pf r hr rest (level pf m || L)
      (fun x hx => hm x (List.mem_cons_of_mem m hx))
    rw [List.cons_append, tap_run_cons, h1]
    simp only [h2, List.any_cons]
    cases level pf m <;> cases L <;> simp

/-- C2: over a full session — a snapshot `p` raising the hotkey level from an
idle state, snapshots `mids` all holding it, then a snapshot `r` dropping
it — the tracker emits exactly `[Pressed, Released b]` where `b` is true iff
the polish-mask bits are set in some snapshot among `p :: mids` (the press
snapshot and the held period, not the release snapshot); the prior latch
value `s.polishLatched` does not influence `b` (the latch is reset on the
Pressed edge). -/
theorem C2_polish_latch (hf pf : Nat) (s : TrackerState) (p r : Nat)
    (mids : List Nat) (hs : s.wasPressed = false) (hp : level hf p = true)
    (hm : ∀ m ∈ mids, level hf m = true) (hr : level hf r = false) :
    (tap_run hf pf s (p :: (mids ++ [r]))).2 =
      [KeyEdge.pressed, KeyEdge.released ((p :: mids).any (level pf))] := by
  have h1 := tap_step_press hf pf s p hs hp
  have h2 := tap_run_held hf pf r hr mids (level pf p) hm
  rw [tap_run_cons, h1]
  simp [h2, List.any_cons]

/-- Witness for C2: hotkey mask 1, polish mask 2, a stale latch `true` in the
incoming state, and a session with no polish modifier held — the Released
edge carries `false`, showing the reset. -/
theorem C2_polish_latch_witness :
    (tap_run 1 2 ⟨false, true⟩ (1 :: ([1] ++ [0]))).2 =
      [KeyEdge.pressed, KeyEdge.released false] := by
  have h := C2_polish_latch 1 2 ⟨false, true⟩ 1 0 [1] (by decide) (by decide)
    (by decide) (by decide)
  rw [h]
  decide

/-! ## Audio enhancer (enhance_audio, src/main.rs lines 735-771)

Modelled over exact rationals.  The filter coefficient
`a = exp(-2*pi*80/sample_rate)` is transcendental, so it is a parameter of
the embedding; no claim about the enhancer depends on its value.  The
literals 0.707, 1.05 and 4.0 become the exact rationals 707/1000, 105/100
and 4. -/

/-- DC offset removal: subtract the arithmetic mean from every sample. -/
def dc_removed (samples : List ℚ) : List ℚ :=
  let mean := samples.sum / samples.length
  samples.map (fun s => s - mean)

/-- The high-pass recurrence `y = a * (prev_y + x - prev_x)` with running
previous input and output. -/
def hp_go (a prevX prevY : ℚ) : List ℚ → List ℚ
  | [] => []
  | x :: rest =>
    let y := a * (prevY + x - prevX)
    y :: hp_go a x y rest

/-- Single-pole high-pass filter with zero initial conditions. -/
def highpass (a : ℚ) (l : List ℚ) : List ℚ := hp_go a 0 0 l

/-- The peak computation of `enhance_audio`: fold of `max` over absolute
values with initial accumulator 1.0 (the floor in the source). -/
def peak (l : List ℚ) : ℚ := l.foldl (fun acc s => max acc |s|) 1

/-- Peak amplitude as the specification describes it (`max(|sample|)` with no
floor); used only to state claims about the intended normalization. -/
def peak_amplitude (l : List ℚ) : ℚ := l.foldl (fun acc s => max acc |s|) 0

/-- Rust `clamp(-1.0, 1.0)`. -/
def clamp1 (s : ℚ) : ℚ := max (-1) (min 1 s)

/-- The normalization gain `min(0.707 / peak, 4.0)` computed by
`enhance_audio` on the filtered signal. -/
def gain (a : ℚ) (samples : List ℚ) : ℚ :=
  min (707/1000 / peak (highpass a (dc_removed samples))) 4

/-- The enhancement pipeline: early return on empty input, DC removal,
high-pass filter, then the gain branch (`if gain > 1.05`) with clamping. -/
def enhance_audio (a : ℚ) (samples : List ℚ) : List ℚ :=
  if samples.isEmpty then []
  else
    let filtered := highpass a (dc_removed samples)
    let g := min (707/1000 / peak filtered) 4
    if 105/100 < g then filtered.map (fun s => clamp1 (s * g))
    else filtered.map clamp1

theorem dc_removed_zero (n : ℕ) :
    dc_removed (List.replicate n 0) = List.replicate n 0 := by
  simp [dc_removed]

theorem hp_go_zero (a : ℚ) (n : ℕ) :
    hp_go a 0 0 (List.replicate n 0) = List.replicate n 0 := by
  induction n with
  | zero => simp [hp_go]
  | succ n ih => simpa [hp_go, List.replicate_succ] using ih

theorem peak_replicate_zero (n : ℕ) : peak (List.replicate n 0) = 1 := by
  induction n with
  | zero => simp [peak]
  | succ n ih => simpa [peak, List.replicate_succ] using ih

/-- C8: the enhancer maps the empty list to the empty list, and an all-zero
input of any length to an all-zero output of the same length. -/
theorem C8_silence_preserved (a : ℚ) :
    enhance_audio a [] = [] ∧
    ∀ n : ℕ, enhance_audio a (List.replicate n 0) = List.replicate n 0 := by
  constructor
  · simp [enhance_audio]
  · intro n
    cases n with
    | zero => simp [enhance_audio]
    | succ n =>
      have hdc := dc_removed_zero (n + 1)
      have hhp := hp_go_zero a (n + 1)
      have hpk := peak_replicate_zero (n + 1)
      simp only [enhance_audio, highpass, hdc, hhp, hpk, List.isEmpty_iff]
      rw [if_neg (by simp [List.replicate_succ]), if_neg (by norm_num)]
      simp [clamp1]

theorem le_foldl_max_abs (l : List ℚ) : ∀ acc : ℚ,
    acc ≤ l.foldl (fun acc s => max acc |s|) acc := by
  induction l with
  | nil => intro acc; exact le_refl acc
  | cons x xs ih =>
    intro acc
    exact le_trans (le_max_left acc |x|) (ih (max acc |x|))

theorem one_le_peak (l : List ℚ) : 1 ≤ peak l := le_foldl_max_abs l 1

theorem gain_le_target (a : ℚ) (samples : List ℚ) :
    gain a samples ≤ 707/1000 := by
  have hpk := one_le_peak (highpass a (dc_removed samples))
  have hdiv : 707/1000 / peak (highpass a (dc_removed samples)) ≤ 707/1000 :=
    div_le_self (by norm_num) hpk
  exact le_trans (min_le_left _ _) hdiv

theorem clamp1_mem_bounds (s : ℚ) : -1 ≤ clamp1 s ∧ clamp1 s ≤ 1 := by
  unfold clamp1
  constructor
  · exact le_max_left _ _
  · exact max_le (by norm_num) (min_le_left _ _)

theorem enhance_eq_clamped_filter (a : ℚ) (samples : List ℚ) :
    enhance_audio a samples = (highpass a (dc_removed samples)).map clamp1 := by
  unfold enhance_audio
  by_cases he : samples.isEmpty
  · rw [if_pos he]
    have : samples = [] := List.isEmpty_iff.mp he
    subst this
    simp [highpass, dc_removed, hp_go]
  · rw [if_neg he]
    have hg := gain_le_target a samples
    unfold gain at hg
    rw [if_neg (by linarith)]

theorem enhance_mem_bound (a : ℚ) (samples : List ℚ) (y : ℚ)
    (hy : y ∈ enhance_audio a samples) : -1 ≤ y ∧ y ≤ 1 := by
  rw [enhance_eq_clamped_filter] at hy
  obtain ⟨x, _, hx⟩ := List.mem_map.mp hy
  rw [← hx]
  exact clamp1_mem_bounds x

/-- C10: the peak floor of 1.0 keeps the computed gain at or below 0.707,
strictly below the 1.05 application threshold, so the gain branch is dead:
the output is exactly the clamped high-pass-filtered DC-removed signal, and
every output sample lies in [-1, 1]. -/
theorem C10_gain_branch_unreachable (a : ℚ) (samples : List ℚ) :
    gain a samples ≤ 707/1000 ∧
    ¬ 105/100 < gain a samples ∧
    enhance_audio a samples = (highpass a (dc_removed samples)).map clamp1 ∧
    ∀ y ∈ enhance_audio a samples, -1 ≤ y ∧ y ≤ 1 :=
  ⟨gain_le_target a samples,
   fun h => absurd (lt_of_lt_of_le h (gain_le_target a samples)) (by norm_num),
   enhance_eq_clamped_filter a samples,
   fun y hy => enhance_mem_bound a samples y hy⟩

theorem highpass_two_neg_two :
    highpass (1/2) (dc_removed [2, -2]) = [1, -3/2] := by
  norm_num [highpass, dc_removed, hp_go, List.sum_cons, List.sum_nil]

/-- Witness for C10 at a concrete input: coefficient 1/2, samples [2, -2];
the sample 1 is in the output and obeys the bounds. -/
theorem C10_gain_branch_unreachable_witness :
    gain (1/2) [2, -2] ≤ 707/1000 ∧
    enhance_audio (1/2) [2, -2] =
      (highpass (1/2) (dc_removed [2, -2])).map clamp1 ∧
    (-1 ≤ (1 : ℚ) ∧ (1 : ℚ) ≤ 1) := by
  have h := C10_gain_branch_unreachable (1/2) [2, -2]
  refine ⟨h.1, h.2.2.1, h.2.2.2 1 ?_⟩
  rw [h.2.2.1, highpass_two_neg_two]
  simp only [List.map_cons, List.map_nil, clamp1]
  rw [min_self, max_eq_right (by norm_num : (-1:ℚ) ≤ 1)]
  exact List.mem_cons_self _ _

/-- C4: the claimed normalization never happens.  At filter coefficient 1/2
and input [2, -2], the post-filter peak amplitude is 3/2 > 0.707/4, yet the
output [1, -1] has peak 1, far above the claimed 0.707 ceiling (even with a
generous 5% tolerance); and the gain evaluates to 707/1500, never 4.0.  The
`fold(1.0, max)` floor contradicts the function's own documentation
("Peak normalizes to ~-3 dBFS"). -/
theorem C4_normalization_dead :
    peak_amplitude (highpass (1/2) (dc_removed [2, -2])) = 3/2 ∧
    (707/1000 : ℚ) / 4 < 3/2 ∧
    enhance_audio (1/2) [2, -2] = [1, -1] ∧
    ¬ ((1 : ℚ) ≤ 707/1000 * (105/100)) ∧
    gain (1/2) [2, -2] = 707/1500 := by
  have habs : |(-3/2 : ℚ)| = 3/2 := by
    rw [abs_of_nonpos (by norm_num)]; norm_num
  have hfilter := highpass_two_neg_two
  refine ⟨?_, by norm_num, ?_, by norm_num, ?_⟩
  · rw [hfilter]
    simp only [peak_amplitude, List.foldl_cons, List.foldl_nil, abs_one, habs]
    rw [max_eq_right (by norm_num : (0:ℚ) ≤ 1),
        max_eq_right (by norm_num : (1:ℚ) ≤ 3/2)]
  · rw [enhance_eq_clamped_filter, hfilter]
    simp only [List.map_cons, List.map_nil, clamp1]
    rw [min_self, max_eq_right (by norm_num : (-1:ℚ) ≤ 1),
        min_eq_right (by norm_num : (-3/2:ℚ) ≤ 1),
        max_eq_left (by norm_num : (-3/2:ℚ) ≤ -1)]
  · unfold gain
    rw [hfilter]
    simp only [peak, List.foldl_cons, List.foldl_nil, abs_one, habs, max_self]
    rw [max_eq_right (by norm_num : (1:ℚ) ≤ 3/2),
        min_eq_left (by norm_num : (707/1000 : ℚ) / (3/2) ≤ 4)]
    norm_num

/-! ## WAV sample conversion (encode_wav, src/main.rs lines 786-791)

The source converts each enhanced sample with `(sample * 32767.0) as i16`.
Rust float-to-int `as` truncates toward zero and saturates at the integer
type's bounds; that semantics is the model below.  The container header and
the hound writer are out of scope here (the claim is about sample values). -/

/-- Truncation toward zero of a rational. -/
def ratTrunc (q : ℚ) : ℤ := if 0 ≤ q then ⌊q⌋ else ⌈q⌉

/-- Saturation to the i16 range, as Rust `as i16` does on out-of-range
floats. -/
def sat16 (z : ℤ) : ℤ := max (-32768) (min 32767 z)

/-- The per-sample conversion of `encode_wav`: `(sample * 32767.0) as i16`. -/
def wav_sample (s : ℚ) : ℤ := sat16 (ratTrunc (s * 32767))

/-- Modelled from the spec's words for comparison: `round(s * 32767)` clamped
to the signed 16-bit range. -/
def wav_sample_spec (s : ℚ) : ℤ := sat16 (round (s * 32767))

/-- The sample payload of `encode_wav`: enhance, then convert each sample. -/
def encode_wav_samples (a : ℚ) (samples : List ℚ) : List ℤ :=
  (enhance_audio a samples).map wav_sample

/-- C6 counterexample: the enhanced buffer for filter coefficient 1/2 and
input [1/32767, -1/32767] contains the sample 1/65534, whose scaled value is
exactly 1/2; the encoder writes trunc(1/2) = 0 while the claimed
round(1/2) clamped is 1 (all common rounding conventions agree on 1 here,
since 16384 is even). -/
theorem C6_round_counterexample :
    (1/65534 : ℚ) ∈ enhance_audio (1/2) [1/32767, -1/32767] ∧
    wav_sample (1/65534) = 0 ∧
    wav_sample_spec (1/65534) = 1 := by
  have hfilter : highpass (1/2) (dc_removed [1/32767, -1/32767]) =
      [1/65534, -3/131068] := by
    norm_num [highpass, dc_removed, hp_go, List.sum_cons, List.sum_nil]
  refine ⟨?_, ?_, ?_⟩
  · rw [enhance_eq_clamped_filter, hfilter]
    simp only [List.map_cons, List.map_nil, clamp1]
    rw [min_eq_right (by norm_num : (1/65534:ℚ) ≤ 1),
        max_eq_right (by norm_num : (-1:ℚ) ≤ 1/65534)]
    exact List.mem_cons_self _ _
  · unfold wav_sample ratTrunc sat16
    rw [if_pos (by norm_num : (0:ℚ) ≤ 1/65534 * 32767)]
    have h32 : (1/65534 : ℚ) * 32767 = 1/2 := by norm_num
    rw [h32]
    have hfl : ⌊(1/2 : ℚ)⌋ = 0 := by
      rw [Int.floor_eq_iff]
      norm_num
    rw [hfl]
    rw [min_eq_right (by norm_num : (0:ℤ) ≤ 32767),
        max_eq_right (by norm_num : (-32768:ℤ) ≤ 0)]
  · unfold wav_sample_spec sat16
    have h32 : (1/65534 : ℚ) * 32767 = 1/2 := by norm_num
    rw [h32]
    have hrd : round (1/2 : ℚ) = 1 := by
      rw [round_eq]
      norm_num
    rw [hrd]
    rw [min_eq_right (by norm_num : (1:ℤ) ≤ 32767),
        max_eq_right (by norm_num : (-32768:ℤ) ≤ 1)]

theorem ratTrunc_bounds (q : ℚ) (n : ℤ) (hq : |q| ≤ n) :
    -n ≤ ratTrunc q ∧ ratTrunc q ≤ n := by
  rcases abs_le.mp hq with ⟨hlo, hhi⟩
  unfold ratTrunc
  by_cases h0 : 0 ≤ q
  · rw [if_pos h0]
    constructor
    · calc (-n : ℤ) ≤ 0 := by
            have : (0:ℚ) ≤ n := le_trans h0 hhi
            exact_mod_cast neg_nonpos.mpr (by exact_mod_cast this)
          _ ≤ ⌊q⌋ := Int.floor_nonneg.mpr h0
    · calc ⌊q⌋ ≤ ⌊(n : ℚ)⌋ := Int.floor_le_floor hhi
          _ = n := Int.floor_intCast n
  · rw [if_neg h0]
    push_neg at h0
    constructor
    · calc (-n : ℤ) = ⌈((-n : ℤ) : ℚ)⌉ := (Int.ceil_intCast _).symm
          _ ≤ ⌈q⌉ := Int.ceil_le_ceil (by exact_mod_cast hlo)
    · calc ⌈q⌉ ≤ 0 := Int.ceil_le.mpr (by push_cast; linarith)
          _ ≤ n := by
            have : (0:ℚ) ≤ n := le_trans (abs_nonneg q) hq
            exact_mod_cast this

/-- C6 amended: for every sample `s` of an enhanced buffer, the 16-bit value
written by the encoder is `s * 32767` truncated toward zero; it lies in
[-32767, 32767], so the i16 saturation of the `as` cast never engages. -/
theorem C6_sample_is_truncation (a : ℚ) (samples : List ℚ) (s : ℚ)
    (hs : s ∈ enhance_audio a samples) :
    wav_sample s = ratTrunc (s * 32767) ∧
    -32767 ≤ wav_sample s ∧ wav_sample s ≤ 32767 := by
  have hb := enhance_mem_bound a samples s hs
  have habs : |s * 32767| ≤ ((32767 : ℤ) : ℚ) := by
    rw [abs_mul]
    have h1 : |s| ≤ 1 := abs_le.mpr hb
    have h2 : |(32767 : ℚ)| = 32767 := by norm_num
    rw [h2]
    calc |s| * 32767 ≤ 1 * 32767 := by
          exact mul_le_mul_of_nonneg_right h1 (by norm_num)
      _ = ((32767 : ℤ) : ℚ) := by norm_num
  have htr := ratTrunc_bounds (s * 32767) 32767 habs
  have hsat : wav_sample s = ratTrunc (s * 32767) := by
    unfold wav_sample sat16
    rw [min_eq_right htr.2, max_eq_right (by linarith [htr.1])]
  exact ⟨hsat, by rw [hsat]; exact ⟨htr.1, htr.2⟩⟩

/-- Witness for C6's amended theorem at the concrete enhanced buffer of the
counterexample input: the sample 3/131068 scales to 3/4 and is written as 0. -/
theorem C6_sample_is_truncation_witness :
    wav_sample (-3/131068) = ratTrunc ((-3/131068) * 32767) ∧
    -32767 ≤ wav_sample (-3/131068) ∧ wav_sample (-3/131068) ≤ 32767 := by
  have hfilter : highpass (1/2) (dc_removed [1/32767, -1/32767]) =
      [1/65534, -3/131068] := by
    norm_num [highpass, dc_removed, hp_go, List.sum_cons, List.sum_nil]
  have hmem : (-3/131068 : ℚ) ∈ enhance_audio (1/2) [1/32767, -1/32767] := by
    rw [enhance_eq_clamped_filter, hfilter]
    simp only [List.map_cons, List.map_nil, clamp1]
    rw [min_eq_right (by norm_num : (1/65534:ℚ) ≤ 1),
        max_eq_right (by norm_num : (-1:ℚ) ≤ 1/65534),
        min_eq_right (by norm_num : (-3/131068:ℚ) ≤ 1),
        max_eq_right (by norm_num : (-1:ℚ) ≤ -3/131068)]
    exact List.mem_cons_of_mem _ (List.mem_cons_self _ _)
  exact C6_sample_is_truncation (1/2) [1/32767, -1/32767] (-3/131068) hmem

/-! ## Orchestration (stop_recording / transcribe_and_paste / polish_text,
src/main.rs lines 566-728)

The external collaborators are explicit outcome parameters: the hound
finalize result, the reqwest transcription response, the serde_json parse
(a function `String → Option Json`), the polish call outcome, and the two
arboard clipboard results.  The observable side effects of one session are
collected in an `Effects` record. -/

/-- A JSON value, as far as the response handling inspects one. -/
inductive Json where
  | str : String → Json
  | num : Int → Json
  | bool : Bool → Json
  | null : Json
  | arr : List Json → Json
  | obj : List (String × Json) → Json

/-- serde_json `Value::as_str`. -/
def Json.getStr : Json → Option String
  | .str s => some s
  | _ => none

/-- serde_json `Value::get(key)`: field lookup on objects, `None` otherwise. -/
def Json.getField (j : Json) (k : String) : Option Json :=
  match j with
  | .obj fields => fields.lookup k
  | _ => none

/-- Rust `str::trim_start`: drop leading whitespace. -/
def rust_trim_start (s : String) : String :=
  ⟨s.data.dropWhile Char.isWhitespace⟩

/-- Rust `str::trim`: drop leading and trailing whitespace. -/
def rust_trim (s : String) : String :=
  ⟨((s.data.dropWhile Char.isWhitespace).reverse.dropWhile
      Char.isWhitespace).reverse⟩

/-- Rust `str::starts_with(c)` for a single character. -/
def starts_with_char (s : String) (c : Char) : Bool :=
  match s.data with
  | [] => false
  | d :: _ => d == c

/-- The opening-brace character. -/
def braceChar : Char := Char.ofNat 123

/-- The transcription response-body handling of `transcribe_and_paste`:
if the trimmed body starts with a brace, parse it and extract a string
`text` field, falling back to the whole trimmed body; otherwise use the
trimmed body. -/
def extract_text (parse : String → Option Json) (raw : String) : String :=
  if starts_with_char (rust_trim_start raw) braceChar then
    match (parse (rust_trim raw)).bind
        (fun v => (v.getField "text").bind Json.getStr) with
    | some t => t
    | none => rust_trim raw
  else
    rust_trim raw

/-- Outcome of the polish HTTP call: network error, or a response with a
status and the result of parsing the body as a chat completion
(`none` = malformed body, otherwise the list of choice message contents). -/
inductive PolishOutcome where
  | netErr : PolishOutcome
  | httpResponse : Bool → Option (List String) → PolishOutcome

/-- The `polish_text` function: `None` on network error, non-success status
or malformed body; otherwise the first choice's content. -/
def polish_text : PolishOutcome → Option String
  | .netErr => none
  | .httpResponse ok choices =>
    if ok then choices.bind List.head? else none

/-- The transcription HTTP response: status plus the `resp.text()` result. -/
structure HttpResp where
  statusSuccess : Bool
  body : Option String

/-- Outcomes of all external calls one background unit makes. -/
structure NetEnv where
  encodeOk : Bool
  response : Option HttpResp
  parse : String → Option Json
  polishOutcome : PolishOutcome
  clipboardNewOk : Bool
  setTextOk : Bool

/-- Observable side effects of one session. -/
structure Effects where
  encodeAttempted : Bool
  transcribeRequested : Bool
  polishRequested : Bool
  clipboardText : Option String
  pasteSent : Bool
deriving DecidableEq, Repr

/-- The absence of effects: nothing encoded, no HTTP, no clipboard, no paste. -/
def noEffects : Effects := ⟨false, false, false, none, false⟩

/-- The background unit `transcribe_and_paste`: encode (abort on failure),
send the transcription request, check status and read the body, extract the
text, abort on empty text, optionally polish with fallback to the raw
transcript, then clipboard write and — only if it succeeded — the paste
keystroke. -/
def transcribe_and_paste (env : NetEnv) (doPolish : Bool) : Effects :=
  if !env.encodeOk then ⟨true, false, false, none, false⟩
  else
    match env.response with
    | none => ⟨true, true, false, none, false⟩
    | some resp =>
      if !resp.statusSuccess then ⟨true, true, false, none, false⟩
      else
        match resp.body with
        | none => ⟨true, true, false, none, false⟩
        | some raw =>
          let text := extract_text env.parse raw
          if text = "" then ⟨true, true, false, none, false⟩
          else
            let finalText :=
              if doPolish then (polish_text env.polishOutcome).getD text
              else text
            if env.clipboardNewOk then
              if env.setTextOk then ⟨true, true, doPolish, some finalText, true⟩
              else ⟨true, true, doPolish, none, false⟩
            else ⟨true, true, doPolish, none, false⟩

/-- The decision `stop_recording` takes after snapshotting the buffer:
spawn a background unit carrying the snapshot, the sample rate and the
polish flag, or nothing when the buffer is empty. -/
def stop_recording (buffer : List ℚ) (sampleRate : Nat) (polish : Bool) :
    Option (List ℚ × Nat × Bool) :=
  if buffer.isEmpty then none else some (buffer, sampleRate, polish)

/-- Effects of a session given the spawn decision: no spawned unit means no
effects at all. -/
def session_effects (spawned : Option (List ℚ × Nat × Bool)) (env : NetEnv) :
    Effects :=
  match spawned with
  | none => noEffects
  | some s => transcribe_and_paste env s.2.2

/-- C3: a Released edge with an empty capture buffer spawns no background
unit, and the session has no effects whatsoever — no encoding, no HTTP
request, no clipboard mutation, no paste; the orchestrator is back to idle
with no session state retained. -/
theorem C3_empty_buffer_no_processing (sr : Nat) (polish : Bool)
    (env : NetEnv) :
    stop_recording [] sr polish = none ∧
    session_effects (stop_recording [] sr polish) env = noEffects := by
  constructor <;> simp [stop_recording, session_effects]

/-- C5 counterexample: the body consisting of the single character `{` is not
parseable JSON (serde_json fails on it, modelled by the parse function
returning `none`), yet the session does not abort: the trimmed body itself
becomes the transcript, the clipboard is written and the paste keystroke is
sent. -/
theorem C5_counterexample_no_abort :
    transcribe_and_paste
      ⟨true, some ⟨true, some "\x7b"⟩, fun _ => none,
        PolishOutcome.netErr, true, true⟩ false =
      ⟨true, true, false, some "\x7b", true⟩ := by
  decide

/-- C5 amended: when the body starts with `{` but JSON parsing fails or
yields no string `text` field, the client does not error — it falls back to
the whole trimmed body as the transcript, and (when that is non-empty and
the later stages succeed) the session proceeds to clipboard write and
paste. -/
theorem C5_brace_fallback (env : NetEnv) (raw : String)
    (hbrace : starts_with_char (rust_trim_start raw) braceChar = true)
    (hfail : ((env.parse (rust_trim raw)).bind
      (fun v => (v.getField "text").bind Json.getStr)) = none)
    (henc : env.encodeOk = true)
    (hresp : env.response = some ⟨true, some raw⟩)
    (hne : rust_trim raw ≠ "")
    (hclip : env.clipboardNewOk = true)
    (hset : env.setTextOk = true) :
    extract_text env.parse raw = rust_trim raw ∧
    transcribe_and_paste env false =
      ⟨true, true, false, some (rust_trim raw), true⟩ := by
  have hext : extract_text env.parse raw = rust_trim raw := by
    unfold extract_text
    rw [if_pos hbrace, hfail]
  refine ⟨hext, ?_⟩
  unfold transcribe_and_paste
  rw [henc, hresp]
  simp only [hext]
  simp [hne, hclip, hset]

/-- Witness for C5's amended theorem at a concrete environment whose parse
function rejects the body (raw body a brace followed by garbage). -/
theorem C5_brace_fallback_witness :
    extract_text (fun _ => none) "\x7bbad" = "\x7bbad" ∧
    transcribe_and_paste
      ⟨true, some ⟨true, some "\x7bbad"⟩, fun _ => none,
        PolishOutcome.netErr, true, true⟩ false =
      ⟨true, true, false, some "\x7bbad", true⟩ := by
  have htrim : rust_trim "\x7bbad" = "\x7bbad" := by decide
  have h := C5_brace_fallback
    ⟨true, some ⟨true, some "\x7bbad"⟩, fun _ => none,
      PolishOutcome.netErr, true, true⟩ "\x7bbad"
    (by decide) rfl rfl rfl (by decide) rfl rfl
  rw [htrim] at h
  exact h

/-- C7: the polish call returns `None` on every failure mode — network
error, non-success status, malformed body, empty choices list — and in that
case the text written to the clipboard is exactly the unpolished
transcript. -/
theorem C7_polish_failure_fallback :
    (∀ po : PolishOutcome,
        (po = PolishOutcome.netErr ∨
          (∃ c, po = PolishOutcome.httpResponse false c) ∨
          po = PolishOutcome.httpResponse true none ∨
          po = PolishOutcome.httpResponse true (some [])) →
        polish_text po = none) ∧
    ∀ (env : NetEnv) (raw : String),
      env.encodeOk = true →
      env.response = some ⟨true, some raw⟩ →
      polish_text env.polishOutcome = none →
      extract_text env.parse raw ≠ "" →
      env.clipboardNewOk = true →
      env.setTextOk = true →
      (transcribe_and_paste env true).clipboardText =
        some (extract_text env.parse raw) := by
  constructor
  · intro po h
    rcases h with h | ⟨c, h⟩ | h | h <;> subst h <;> simp [polish_text]
  · intro env raw henc hresp hpol hne hclip hset
    unfold transcribe_and_paste
    rw [henc, hresp]
    simp [hne, hclip, hset, hpol]

/-- Witness for C7: an empty choices list makes polish fail, and the raw
transcript reaches the clipboard. -/
theorem C7_polish_failure_fallback_witness :
    polish_text (PolishOutcome.httpResponse true (some [])) = none ∧
    (transcribe_and_paste
        ⟨true, some ⟨true, some "hi"⟩, fun _ => none,
          PolishOutcome.httpResponse true (some []), true, true⟩
        true).clipboardText = some "hi" := by
  have h := C7_polish_failure_fallback
  have h1 : polish_text (PolishOutcome.httpResponse true (some [])) = none :=
    h.1 _ (Or.inr (Or.inr (Or.inr rfl)))
  refine ⟨h1, ?_⟩
  have h2 := h.2
    ⟨true, some ⟨true, some "hi"⟩, fun _ => none,
      PolishOutcome.httpResponse true (some []), true, true⟩ "hi"
    rfl rfl h1 (by decide) rfl rfl
  rw [h2]
  decide

/-- C9: if the clipboard cannot be opened or the clipboard write fails, no
paste keystroke is synthesized and no text is delivered. -/
theorem C9_clipboard_fail_no_paste (env : NetEnv) (doPolish : Bool)
    (h : env.clipboardNewOk = false ∨ env.setTextOk = false) :
    (transcribe_and_paste env doPolish).pasteSent = false ∧
    (transcribe_and_paste env doPolish).clipboardText = none := by
  obtain ⟨enc, resp, parse, po, cn, st⟩ := env
  dsimp only at h
  cases enc
  · simp [transcribe_and_paste]
  · cases resp with
    | none => simp [transcribe_and_paste]
    | some r =>
      obtain ⟨ss, body⟩ := r
      cases ss
      · simp [transcribe_and_paste]
      · cases body with
        | none => simp [transcribe_and_paste]
        | some raw =>
          by_cases ht : extract_text parse raw = ""
          · simp [transcribe_and_paste, ht]
          · cases cn
            · simp [transcribe_and_paste, ht]
            · cases st
              · simp [transcribe_and_paste, ht]
              · rcases h with h | h <;> simp at h

/-- Witness for C9: a failing `set_text` suppresses the paste keystroke. -/
theorem C9_clipboard_fail_no_paste_witness :
    (transcribe_and_paste
        ⟨true, some ⟨true, some "x"⟩, fun _ => none,
          PolishOutcome.netErr, true, false⟩ false).pasteSent = false ∧
    (transcribe_and_paste
        ⟨true, some ⟨true, some "x"⟩, fun _ => none,
          PolishOutcome.netErr, true, false⟩ false).clipboardText = none :=
  C9_clipboard_fail_no_paste
    ⟨true, some ⟨true, some "x"⟩, fun _ => none,
      PolishOutcome.netErr, true, false⟩ false (Or.inr rfl)

end FnKey
